import Mathlib

/-!
Shallow embedding of the election-dashboard pipeline
(src/Election Visualization Dashboard/main.py) and proofs of the
specification claims about it.

Tables are lists of structure values; missing values (pandas NaN) are
Option none; pandas floats are modelled as rationals.  Library
operations used by the script (str.strip, str.title, str.replace,
pd.to_numeric, pd.cut, groupby, sort_values, drop_duplicates, merge)
are given explicit executable models below, each next to the pipeline
step that uses it.
-/

namespace Election

/-- ASCII case table used to model Python str.title on the ASCII
fragment: pairs of (lowercase, uppercase) letters. -/
def caseTable : List (Char × Char) :=
  [('a','A'), ('b','B'), ('c','C'), ('d','D'), ('e','E'), ('f','F'),
   ('g','G'), ('h','H'), ('i','I'), ('j','J'), ('k','K'), ('l','L'),
   ('m','M'), ('n','N'), ('o','O'), ('p','P'), ('q','Q'), ('r','R'),
   ('s','S'), ('t','T'), ('u','U'), ('v','V'), ('w','W'), ('x','X'),
   ('y','Y'), ('z','Z')]

/-- Uppercase mapping on characters (identity off the table). -/
def upChar (c : Char) : Char :=
  ((caseTable.find? (fun p => p.1 = c)).map (fun p => p.2)).getD c

/-- Lowercase mapping on characters (identity off the table). -/
def lowChar (c : Char) : Char :=
  ((caseTable.find? (fun p => p.2 = c)).map (fun p => p.1)).getD c

/-- Whether a character is cased (a letter), the word-boundary test of
Python str.title. -/
def isCasedChar (c : Char) : Bool :=
  caseTable.any (fun p => p.1 = c || p.2 = c)

/-- Python str.title on a character list: a cased character after a
noncased one is uppercased, a cased character after a cased one is
lowercased; the flag carries whether the previous character was cased. -/
def titleAux : Bool → List Char → List Char
  | _, [] => []
  | prev, c :: cs =>
      (if prev then lowChar c else upChar c) :: titleAux (isCasedChar c) cs

/-- Python str.title. -/
def titleStr (s : String) : String := ⟨titleAux false s.data⟩

/-- Python whitespace test (ASCII fragment). -/
def pySpace (c : Char) : Bool :=
  c = ' ' || c = '\t' || c = '\n' || c = '\x0b' || c = '\x0c' || c = '\r'

/-- Python str.strip on a character list: drop leading and trailing
whitespace. -/
def stripList (l : List Char) : List Char :=
  ((l.dropWhile pySpace).reverse.dropWhile pySpace).reverse

/-- Python str.strip. -/
def stripStr (s : String) : String := ⟨stripList s.data⟩

/-- Value of a digit character, none for nondigits. -/
def digitVal (c : Char) : Option Nat :=
  if '0' ≤ c ∧ c ≤ '9' then some (c.toNat - '0'.toNat) else none

/-- Parse a nonempty all-digit list as a natural number. -/
def digitsVal : List Char → Option Nat
  | [] => none
  | l => l.foldl (fun acc c => match acc, digitVal c with
      | some n, some d => some (n * 10 + d)
      | _, _ => none) (some 0)

/-- Model of pd.to_numeric with errors coerce on a decimal string:
optional sign, then digits with at most one decimal point and at least
one digit; anything else coerces to none (NaN). -/
def toNumeric (s : String) : Option ℚ :=
  let l := stripList s.data
  let (neg, body) := match l with
    | '-' :: rest => (true, rest)
    | '+' :: rest => (false, rest)
    | rest => (false, rest)
  let intPart := body.takeWhile (fun c => c ≠ '.')
  let rest := body.dropWhile (fun c => c ≠ '.')
  let mag : Option ℚ := match rest with
    | [] => (digitsVal intPart).map (fun n => (n : ℚ))
    | _ :: frac =>
        if intPart = [] ∧ frac = [] then none
        else match intPart, frac with
          | [], f => (digitsVal f).map (fun n => (n : ℚ) / (10 : ℚ) ^ f.length)
          | i, [] => (digitsVal i).map (fun n => (n : ℚ))
          | i, f => match digitsVal i, digitsVal f with
              | some a, some b => some ((a : ℚ) + (b : ℚ) / (10 : ℚ) ^ f.length)
              | _, _ => none
  mag.map (fun q => if neg then -q else q)

/-- Model of str.replace with an empty replacement of a one-character
pattern: remove every occurrence of the character. -/
def removeChar (c : Char) (s : String) : String :=
  ⟨s.data.filter (fun d => d ≠ c)⟩

/-- Model of astype(str) on a possibly missing string: NaN prints as
the string nan. -/
def astypeStr (o : Option String) : String := o.getD "nan"

/-- A row of the raw CSV Loksabha_1962-2019.csv as read by read_csv:
the columns the script touches.  Numeric-looking columns arrive as
strings; columns that can be empty are Option. -/
structure RawRow where
  state : Option String
  year : String
  party : Option String
  Pc_name : Option String
  candidate_name : Option String
  Turnout : String
  marginPct : String
  votes : String
  electors : String
deriving DecidableEq, Repr

/-- A row of df_hist after the cleaning block (lines 16 to 48) and the
Pc_name normalization (line 65): Turnout, votes, electors are numbers
guaranteed by the dropna; year and margin may still be missing. -/
structure Row where
  state : Option String
  year : Option ℚ
  party : String
  Pc_name : Option String
  candidate_name : Option String
  Turnout : ℚ
  marginPct : Option ℚ
  votes : ℚ
  electors : ℚ
deriving DecidableEq, Repr

/-- The party_map dictionary of line 19. -/
def party_map : List (String × String) :=
  [("Bharatiya Janata Party", "BJP"),
   ("Indian National Congress", "INC"),
   ("Bahujan Samaj Party", "BSP"),
   ("Aam Aadmi Party", "AAP"),
   ("Communist Party Of India (Marxist)", "CPM"),
   ("All India Trinamool Congress", "TMC"),
   ("Janata Dal (United)", "JDU"),
   ("Samajwadi Party", "SP")]

/-- Model of Series.replace with the party_map dictionary: exact
matches are replaced, everything else is kept. -/
def replaceParty (s : String) : String :=
  ((party_map.find? (fun p => p.1 = s)).map (fun p => p.2)).getD s

/-- The cleaned party value of lines 16 and 29:
astype(str).str.strip().str.title() then the dictionary replace. -/
def cleanParty (p : Option String) : String :=
  replaceParty (titleStr (stripStr (astypeStr p)))

/-- The normalization applied to the join key Pc_name and pc_name on
lines 65 and 66: strip surrounding whitespace, then title-case. -/
def normalizePc (s : String) : String := titleStr (stripStr s)

/-- Cleaning of one raw row, lines 16 to 48 plus line 65: clean the
party, coerce year, Turnout, margin, votes, electors to numbers
(stripping percent signs and commas), drop the row when Turnout, votes
or electors failed to parse, recompute Turnout as votes over electors
times 100, and normalize Pc_name.  Returns none when the dropna of
line 47 removes the row. -/
def cleanRow (r : RawRow) : Option Row :=
  let t := toNumeric (removeChar '%' r.Turnout)
  let m := toNumeric (removeChar '%' r.marginPct)
  let v := toNumeric (removeChar ',' r.votes)
  let e := toNumeric (removeChar ',' r.electors)
  match t, v, e with
  | some _, some v, some e =>
      some { state := r.state
             year := toNumeric r.year
             party := cleanParty r.party
             Pc_name := r.Pc_name.map normalizePc
             candidate_name := r.candidate_name
             Turnout := v / e * 100
             marginPct := m
             votes := v
             electors := e }
  | _, _, _ => none

/-- The cleaned results table df_hist as a list of rows. -/
def dfHist (raw : List RawRow) : List Row := raw.filterMap cleanRow

/-- Insertion of an element into a list under a Boolean comparison,
keeping earlier smaller elements first. -/
def insertLe {α : Type} (le : α → α → Bool) (a : α) : List α → List α
  | [] => [a]
  | b :: bs => if le a b then a :: b :: bs else b :: insertLe le a bs

/-- Model of sort_values: a comparison sort.  pandas sort_values with
the default quicksort promises no order among ties, so any correct
sort realizes it; insertion sort is used here. -/
def sortBy {α : Type} (le : α → α → Bool) : List α → List α
  | [] => []
  | a :: as => insertLe le a (sortBy le as)

/-- The dropna of line 51 building df_dom: party is never missing
after astype(str), so only state and year filter. -/
def df_dom (df : List Row) : List Row :=
  df.filter (fun r => r.state.isSome && r.year.isSome)

/-- A row of the dominance table: one (state, year, party) group with
its constituency-win count. -/
structure DomRow where
  state : String
  year : ℚ
  party : String
  seats : ℕ
deriving DecidableEq, Repr

/-- The (state, year, party) group key of a row, none when state or
year is missing. -/
def domKey (r : Row) : Option (String × ℚ × String) :=
  match r.state, r.year with
  | some s, some y => some (s, y, r.party)
  | _, _ => none

/-- Number of rows of a table in a given (state, year, party) group:
the groupby size of line 53. -/
def seatCount (df : List Row) (s : String) (y : ℚ) (p : String) : ℕ :=
  df.countP (fun r =>
    decide (r.state = some s) && decide (r.year = some y) && decide (r.party = p))

/-- The groupby size table of lines 52 to 55: one row per
(state, year, party) key occurring in df_dom, with its size. -/
def groupSizes (df : List Row) : List DomRow :=
  ((df_dom df).filterMap domKey).dedup.map
    (fun k => ⟨k.1, k.2.1, k.2.2, seatCount (df_dom df) k.1 k.2.1 k.2.2⟩)

/-- Sort key of line 56: state ascending, year ascending, seats
descending, as a lexicographic triple. -/
def domSortKey (d : DomRow) : (List Char) ×ₗ (ℚ ×ₗ ℕᵒᵈ) :=
  toLex (d.state.data, toLex (d.year, OrderDual.toDual d.seats))

/-- Boolean comparison realizing the sort_values of line 56. -/
def domLe (a b : DomRow) : Bool := decide (domSortKey a ≤ domSortKey b)

/-- Model of drop_duplicates with keep first on a key function: keep
each element whose key was not seen before it. -/
def ddAux {α β : Type} [DecidableEq β] (f : α → β) : List α → List β → List α
  | [], _ => []
  | a :: as, seen =>
      if f a ∈ seen then ddAux f as seen else a :: ddAux f as (f a :: seen)

/-- The dominance table of lines 52 to 58: group sizes, sorted by
state and year ascending and seats descending, keeping the first row
of every (state, year) pair. -/
def dominant (df : List Row) : List DomRow :=
  ddAux (fun d => (d.state, d.year)) (sortBy domLe (groupSizes df)) []

/-- The state_party_dominance table of lines 59 to 61: how many times
each (state, party) pair appears in the dominance table. -/
def state_party_dominance (df : List Row) : List (String × String × ℕ) :=
  ((dominant df).map (fun d => (d.state, d.party))).dedup.map
    (fun k => (k.1, k.2, (dominant df).countP
      (fun d => decide (d.state = k.1) && decide (d.party = k.2))))

/-- The (state, year) group key used by the turnout_top groupby. -/
def syKey (r : Row) : Option (String × ℚ) :=
  match r.state, r.year with
  | some s, some y => some (s, y)
  | _, _ => none

/-- Missing-last key for an optional string column, as pandas
sort_values places NaN last. -/
def optKeyS : Option String → WithTop (List Char)
  | none => ⊤
  | some s => (s.data : WithTop (List Char))

/-- Missing-last key for an optional numeric column. -/
def optKeyQ : Option ℚ → WithTop ℚ
  | none => ⊤
  | some q => (q : WithTop ℚ)

/-- Sort key of line 73: state ascending, year ascending, Turnout
descending, missing values last. -/
def ttSortKey (r : Row) : (WithTop (List Char)) ×ₗ ((WithTop ℚ) ×ₗ ℚᵒᵈ) :=
  toLex (optKeyS r.state, toLex (optKeyQ r.year, OrderDual.toDual r.Turnout))

/-- Boolean comparison realizing the sort_values of line 73. -/
def ttLe (a b : Row) : Bool := decide (ttSortKey a ≤ ttSortKey b)

/-- How many rows with the given group key were already emitted. -/
def seenCnt (k : String × ℚ) (seen : List ((String × ℚ) × ℕ)) : ℕ :=
  ((seen.find? (fun e => decide (e.1 = k))).map (fun e => e.2)).getD 0

/-- Model of groupby head n: walk the rows in order, keep a row while
its group has emitted fewer than n rows; rows with a missing key are
dropped by the groupby. -/
def hpgAux (n : ℕ) : List Row → List ((String × ℚ) × ℕ) → List Row
  | [], _ => []
  | r :: rs, seen =>
      match syKey r with
      | none => hpgAux n rs seen
      | some k =>
          if seenCnt k seen < n then
            r :: hpgAux n rs ((k, seenCnt k seen + 1) :: seen)
          else hpgAux n rs ((k, seenCnt k seen + 1) :: seen)

/-- The turnout_top table of lines 72 to 76: sort by state, year and
descending Turnout, then keep the first 10 rows of every
(state, year) group. -/
def turnout_top (df : List Row) : List Row := hpgAux 10 (sortBy ttLe df) []

/-- The bins list of line 224. -/
def bins : List ℚ := [0, 1, 5, 10, 15, 20, 30, 40, 50, 100]

/-- The labels list of line 225. -/
def labels : List String :=
  ["0-1", "1-5", "5-10", "10-15", "15-20", "20-30", "30-40", "40-50", "50-100"]

/-- Model of pd.cut with right-closed bins: try each interval in
order; with include_lowest the first interval is closed on the left. -/
def cutBins (x : ℚ) : ℚ → Bool → List ℚ → List String → Option String
  | _, _, [], _ => none
  | _, _, _ :: _, [] => none
  | lo, incLow, hi :: bs, lb :: lbs =>
      if (if incLow then lo ≤ x else lo < x) ∧ x ≤ hi then some lb
      else cutBins x hi false bs lbs

/-- The pd.cut call of line 227 on one margin value. -/
def pdCut (x : ℚ) : Option String :=
  match bins, labels with
  | b0 :: rest, lbs => cutBins x b0 true rest lbs
  | _, _ => none

/-- The margin_color column of lines 227 to 232: the cut label, with
missing or out-of-range values filled as gray. -/
def marginColor (m : Option ℚ) : String := (m.bind pdCut).getD "gray"

/-- The margin_color value of one row of df_hist. -/
def margin_color (r : Row) : String := marginColor r.marginPct

/-- The candidate-and-party group key of the groupby on line 281; rows
with a missing candidate name are dropped by the groupby. -/
def cwKey (r : Row) : Option (String × String) :=
  match r.candidate_name with
  | some c => some (c, r.party)
  | none => none

/-- Sort key for the groupby result keys (groupby sorts ascending). -/
def cwSortKey (k : String × String) : (List Char) ×ₗ (List Char) :=
  toLex (k.1.data, k.2.data)

/-- Boolean comparison for candidate-wins keys. -/
def cwLe (a b : String × String) : Bool := decide (cwSortKey a ≤ cwSortKey b)

/-- A row of the sunburst input: candidate, party and win count. -/
structure SunRow where
  candidate_name : String
  party : String
  wins : ℕ
deriving DecidableEq, Repr

/-- Number of rows with the given candidate and party. -/
def pairCount (df : List Row) (c p : String) : ℕ :=
  df.countP (fun r => decide (r.candidate_name = some c) && decide (r.party = p))

/-- The candidate_wins table of lines 280 to 282: one row per
(candidate_name, party) key with its group size. -/
def candidate_wins (df : List Row) : List SunRow :=
  (sortBy cwLe (df.filterMap cwKey).dedup).map
    (fun k => ⟨k.1, k.2, pairCount df k.1 k.2⟩)

/-- The top_candidates filter of line 285: strictly more than 5 wins. -/
def top_candidates (df : List Row) : List SunRow :=
  (candidate_wins df).filter (fun e => 5 < e.wins)

/-- The sunburst_data table of line 288 (a column reordering of
top_candidates, so the same rows). -/
def sunburst_data (df : List Row) : List SunRow := top_candidates df

/-- A row of the boundary dataset: constituency name and an abstract
geometry payload. -/
structure GeoRow where
  pc_name : Option String
  geometry : ℕ
deriving DecidableEq, Repr

/-- The pc_name normalization of line 66 on the geometry table. -/
def cleanGeo (g : List GeoRow) : List GeoRow :=
  g.map (fun r => { r with pc_name := r.pc_name.map normalizePc })

/-- A row of the df_year selection inside plot_map, line 182. -/
structure MapRow where
  Pc_name : Option String
  party : String
  candidate_name : Option String
deriving DecidableEq, Repr

/-- The df_year table of lines 182 to 184: rows of the selected year,
three columns, duplicates dropped keeping the first. -/
def dfYear (df : List Row) (y : ℚ) : List MapRow :=
  ddAux (fun m => m)
    ((df.filter (fun r => decide (r.year = some y))).map
      (fun r => ⟨r.Pc_name, r.party, r.candidate_name⟩)) []

/-- The left merge of line 187: every geometry row paired with each
matching result row, or with none when no result matches. -/
def leftMergeMap (geo : List GeoRow) (dfy : List MapRow) :
    List (GeoRow × Option MapRow) :=
  geo.flatMap (fun g =>
    let ms := dfy.filter (fun m => decide (m.Pc_name = g.pc_name))
    if ms.isEmpty then [(g, none)] else ms.map (fun m => (g, some m)))

/-- The party fillna of line 188: unmatched regions get OTHER. -/
def mergedParty : GeoRow × Option MapRow → String
  | (_, some m) => m.party
  | (_, none) => "OTHER"

/-- A row of the df_year selection inside plot_margin_map, line 239. -/
structure MarginRow where
  Pc_name : Option String
  marginPct : Option ℚ
  margin_color : String
  party : String
deriving DecidableEq, Repr

/-- The df_year table of lines 239 to 241 for the margin map. -/
def dfYearMargin (df : List Row) (y : ℚ) : List MarginRow :=
  ddAux (fun m => m)
    ((df.filter (fun r => decide (r.year = some y))).map
      (fun r => ⟨r.Pc_name, r.marginPct, margin_color r, r.party⟩)) []

/-- The left merge of line 242 for the margin map. -/
def leftMergeMargin (geo : List GeoRow) (dfy : List MarginRow) :
    List (GeoRow × Option MarginRow) :=
  geo.flatMap (fun g =>
    let ms := dfy.filter (fun m => decide (m.Pc_name = g.pc_name))
    if ms.isEmpty then [(g, none)] else ms.map (fun m => (g, some m)))

/-- The margin_color fillna of line 243: unmatched regions get gray. -/
def mergedMarginColor : GeoRow × Option MarginRow → String
  | (_, some m) => m.margin_color
  | (_, none) => "gray"

/-- The in-memory tables the callbacks read: built once at startup. -/
structure AppState where
  df_hist : List Row
  geo : List GeoRow
  turnout_top : List Row
  state_party_dominance : List (String × String × ℕ)
  sunburst_data : List SunRow
deriving DecidableEq, Repr

/-- The plot_map callback, lines 179 to 221: the figure data is the
merged table with the filled party column; the tables are only read. -/
def plot_map (selected_year : ℚ) (st : AppState) :
    (List (GeoRow × Option MapRow × String)) × AppState :=
  let df_year := dfYear st.df_hist selected_year
  let merged_map := leftMergeMap st.geo df_year
  (merged_map.map (fun p => (p.1, p.2, mergedParty p)), st)

/-- The plot_margin_map callback, lines 238 to 276. -/
def plot_margin_map (selected_year : ℚ) (st : AppState) :
    (List (GeoRow × Option MarginRow × String)) × AppState :=
  let df_year := dfYearMargin st.df_hist selected_year
  let merged_map := leftMergeMargin st.geo df_year
  (merged_map.map (fun p => (p.1, p.2, mergedMarginColor p)), st)

/-- The plot_sunburst callback, lines 294 to 306: renders the
precomputed sunburst_data table. -/
def plot_sunburst (st : AppState) : (List SunRow) × AppState :=
  (st.sunburst_data, st)

/-- The major_parties list of line 311. -/
def major_parties : List String :=
  ["BJP", "INC", "BSP", "AAP", "CPM", "TMC", "JDU", "SP"]

/-- The (year, party) group key of the groupby on line 314. -/
def histKey (r : Row) : Option (ℚ × String) :=
  match r.year with
  | some y => some (y, r.party)
  | none => none

/-- The plot_history callback, lines 310 to 372: per (year, party)
group, the count of non-missing Pc_name, the vote sum and the mean
Turnout. -/
def plot_history (st : AppState) :
    (List (ℚ × String × ℕ × ℚ × ℚ)) × AppState :=
  let dfm := st.df_hist.filter (fun r => major_parties.contains r.party)
  let keys := (dfm.filterMap histKey).dedup
  let grouped := keys.map (fun k =>
    let grp := dfm.filter (fun r => decide (histKey r = some k))
    (k.1, k.2, grp.countP (fun r => r.Pc_name.isSome),
      (grp.map Row.votes).sum, (grp.map Row.Turnout).sum / (grp.length : ℚ)))
  (grouped, st)

/-- Mean Turnout of the rows with a given constituency name. -/
def pcMean (l : List Row) (pc : String) : ℚ :=
  let g := l.filter (fun r => decide (r.Pc_name = some pc))
  (g.map Row.Turnout).sum / (g.length : ℚ)

/-- The plot_heatmap callback, lines 376 to 405: filter turnout_top by
state (a copy under pandas boolean indexing), normalize the Pc_name
column of that copy, and pivot mean Turnout per constituency and year
for the ten constituencies with the highest mean Turnout. -/
def plot_heatmap (state : String) (st : AppState) :
    (List (String × List ℚ)) × AppState :=
  let df := st.turnout_top.filter (fun r => decide (r.state = some state))
  if df.isEmpty then ([], st)
  else
    let df2 := df.map (fun r => { r with Pc_name := r.Pc_name.map normalizePc })
    let years := sortBy (fun a b => decide (a ≤ b)) (df2.filterMap Row.year).dedup
    let pcs := (df2.filterMap Row.Pc_name).dedup
    let top10 := (sortBy (fun a b => decide (pcMean df2 b ≤ pcMean df2 a)) pcs).take 10
    (top10.map (fun pc => (pc, years.map (fun y =>
      let cell := df2.filter (fun r =>
        decide (r.Pc_name = some pc) && decide (r.year = some y))
      if cell.isEmpty then 0
      else (cell.map Row.Turnout).sum / (cell.length : ℚ)))), st)

/-- The plot_dom_graph callback, lines 409 to 422: the 25 rows of
state_party_dominance with the highest times_dominated. -/
def plot_dom_graph (st : AppState) :
    (List (String × String × ℕ)) × AppState :=
  ((sortBy (fun a b => decide (b.2.2 ≤ a.2.2)) st.state_party_dominance).take 25, st)

/-- The startup pipeline: the tables as built at module load. -/
def initState (raw : List RawRow) (geoRaw : List GeoRow) : AppState :=
  let df := dfHist raw
  { df_hist := df
    geo := cleanGeo geoRaw
    turnout_top := turnout_top df
    state_party_dominance := state_party_dominance df
    sunburst_data := sunburst_data df }

/-- A concrete raw row whose numeric fields all parse. -/
def rowA : RawRow :=
  { state := some "S", year := "1962", party := some "X", Pc_name := some "P",
    candidate_name := some "C", Turnout := "50", marginPct := "10",
    votes := "100", electors := "200" }

/-- The cleaned form of rowA. -/
def rowAClean : Row :=
  { state := some "S", year := some 1962, party := "X", Pc_name := some "P",
    candidate_name := some "C", Turnout := 50, marginPct := some 10,
    votes := 100, electors := 200 }

/-- A concrete raw row with a parseable electors field equal to zero. -/
def rowZeroElectors : RawRow := { rowA with electors := "0" }

/-! Helper lemmas. -/

/-- Unfolding of cleanRow as a match on the three parses the dropna
inspects. -/
lemma cleanRow_eq (r : RawRow) :
    cleanRow r =
      match toNumeric (removeChar '%' r.Turnout),
            toNumeric (removeChar ',' r.votes),
            toNumeric (removeChar ',' r.electors) with
      | some _, some v, some e =>
          some { state := r.state
                 year := toNumeric r.year
                 party := cleanParty r.party
                 Pc_name := r.Pc_name.map normalizePc
                 candidate_name := r.candidate_name
                 Turnout := v / e * 100
                 marginPct := toNumeric (removeChar '%' r.marginPct)
                 votes := v
                 electors := e }
      | _, _, _ => none := rfl

/-- Evaluation of the cleaning on the concrete row rowA. -/
lemma cleanRow_rowA : cleanRow rowA = some rowAClean := by
  have h : cleanRow rowA = some { rowAClean with Turnout := 100 / 200 * 100 } := rfl
  rw [h]
  norm_num [rowAClean]

/-- Inserting an element permutes consing it. -/
lemma insertLe_perm {α : Type} (le : α → α → Bool) (a : α) :
    ∀ l : List α, (insertLe le a l).Perm (a :: l) := by
  intro l
  induction l with
  | nil => simp [insertLe]
  | cons b bs ih =>
      by_cases h : le a b
      · simp [insertLe, h]
      · simp only [insertLe, if_neg h]
        exact (ih.cons b).trans (List.Perm.swap a b bs)

/-- The sort is a permutation of its input. -/
lemma sortBy_perm {α : Type} (le : α → α → Bool) :
    ∀ l : List α, (sortBy le l).Perm l := by
  intro l
  induction l with
  | nil => simp [sortBy]
  | cons a as ih => exact ((insertLe_perm le a (sortBy le as)).trans (ih.cons a))

/-- Membership in an insertion. -/
lemma mem_insertLe {α : Type} (le : α → α → Bool) (a x : α) (l : List α) :
    x ∈ insertLe le a l ↔ x = a ∨ x ∈ l := by
  have h := (insertLe_perm le a l).mem_iff (a := x)
  simpa using h

/-- Insertion preserves sortedness for a total transitive comparison. -/
lemma insertLe_pairwise {α : Type} (le : α → α → Bool)
    (tr : ∀ a b c, le a b = true → le b c = true → le a c = true)
    (total : ∀ a b, (le a b || le b a) = true) (a : α) :
    ∀ l : List α, List.Pairwise (fun x y => le x y = true) l →
      List.Pairwise (fun x y => le x y = true) (insertLe le a l) := by
  intro l
  induction l with
  | nil => intro _; simp [insertLe]
  | cons b bs ih =>
      intro hp
      rcases List.pairwise_cons.mp hp with ⟨hb, hbs⟩
      by_cases h : le a b
      · simp only [insertLe, if_pos h]
        refine List.pairwise_cons.mpr ⟨?_, hp⟩
        intro x hx
        rcases List.mem_cons.mp hx with h1 | h1
        · exact h1 ▸ h
        · exact tr a b x h (hb x h1)
      · have hba : le b a = true := by
          have := total a b
          simp only [Bool.or_eq_true] at this
          rcases this with h1 | h1
          · exact absurd h1 h
          · exact h1
        simp only [insertLe, if_neg h]
        refine List.pairwise_cons.mpr ⟨?_, ih hbs⟩
        intro x hx
        rcases (mem_insertLe le a x bs).mp hx with h1 | h1
        · exact h1 ▸ hba
        · exact hb x h1

/-- The sort is sorted for a total transitive comparison. -/
lemma sortBy_sorted {α : Type} (le : α → α → Bool)
    (tr : ∀ a b c, le a b = true → le b c = true → le a c = true)
    (total : ∀ a b, (le a b || le b a) = true) :
    ∀ l : List α, List.Pairwise (fun x y => le x y = true) (sortBy le l) := by
  intro l
  induction l with
  | nil => simp [sortBy]
  | cons a as ih => exact insertLe_pairwise le tr total a (sortBy le as) ih

/-- Elements kept by drop_duplicates come from the input. -/
lemma ddAux_subset {α β : Type} [DecidableEq β] (f : α → β) :
    ∀ (l : List α) (seen : List β) (x : α), x ∈ ddAux f l seen → x ∈ l := by
  intro l
  induction l with
  | nil => intro seen x hx; simp [ddAux] at hx
  | cons a as ih =>
      intro seen x hx
      simp only [ddAux] at hx
      by_cases h : f a ∈ seen
      · rw [if_pos h] at hx
        exact List.mem_cons_of_mem a (ih _ _ hx)
      · rw [if_neg h] at hx
        rcases List.mem_cons.mp hx with h1 | h1
        · exact h1 ▸ List.mem_cons_self a as
        · exact List.mem_cons_of_mem a (ih _ _ h1)

/-- Elements kept by drop_duplicates have unseen keys. -/
lemma ddAux_not_seen {α β : Type} [DecidableEq β] (f : α → β) :
    ∀ (l : List α) (seen : List β) (x : α), x ∈ ddAux f l seen → f x ∉ seen := by
  intro l
  induction l with
  | nil => intro seen x hx; simp [ddAux] at hx
  | cons a as ih =>
      intro seen x hx
      simp only [ddAux] at hx
      by_cases h : f a ∈ seen
      · rw [if_pos h] at hx
        exact ih _ _ hx
      · rw [if_neg h] at hx
        rcases List.mem_cons.mp hx with h1 | h1
        · exact h1 ▸ h
        · intro hmem
          exact (ih _ _ h1) (List.mem_cons_of_mem _ hmem)

/-- drop_duplicates keeps exactly one element per key present in the
input whose key was not already seen. -/
lemma ddAux_countP {α β : Type} [DecidableEq β] (f : α → β) (k : β) :
    ∀ (l : List α) (seen : List β),
      (ddAux f l seen).countP (fun x => decide (f x = k)) =
        if k ∈ seen then 0 else if l.any (fun x => decide (f x = k)) then 1 else 0 := by
  intro l
  induction l with
  | nil => intro seen; simp [ddAux]
  | cons a as ih =>
      intro seen
      simp only [ddAux]
      by_cases h : f a ∈ seen
      · rw [if_pos h, ih]
        by_cases hk : k ∈ seen
        · simp [hk]
        · have hak : ¬(f a = k) := fun he => hk (he ▸ h)
          simp [hk, List.any_cons, hak]
      · rw [if_neg h]
        rw [List.countP_cons, ih]
        by_cases hak : f a = k
        · subst hak
          have hk : (f a) ∉ seen := h
          simp [hk, List.any_cons]
        · by_cases hk : k ∈ seen
          · simp [hk, hak]
          · simp [hk, hak, List.any_cons]
            intro h1
            exact absurd h1.symm hak

/-- In a sorted list where the comparison forces a weight bound on
equal keys, every element kept by drop_duplicates has maximal weight
in its key group. -/
lemma ddAux_max {α β : Type} [DecidableEq β] (f : α → β) (w : α → ℕ)
    (le : α → α → Bool) (hR : ∀ a b, le a b = true → f a = f b → w b ≤ w a) :
    ∀ (l : List α) (seen : List β) (d : α),
      List.Pairwise (fun x y => le x y = true) l → d ∈ ddAux f l seen →
        ∀ e ∈ l, f e = f d → w e ≤ w d := by
  intro l
  induction l with
  | nil => intro seen d _ hd; simp [ddAux] at hd
  | cons a as ih =>
      intro seen d hp hd e he hfe
      rcases List.pairwise_cons.mp hp with ⟨ha, has⟩
      simp only [ddAux] at hd
      by_cases h : f a ∈ seen
      · rw [if_pos h] at hd
        have hdk : f d ∉ seen := ddAux_not_seen f as seen d hd
        rcases List.mem_cons.mp he with h1 | h1
        · exact absurd (hfe ▸ (h1 ▸ h : f e ∈ seen)) hdk
        · exact ih seen d has hd e h1 hfe
      · rw [if_neg h] at hd
        rcases List.mem_cons.mp hd with h1 | h1
        · subst h1
          rcases List.mem_cons.mp he with h2 | h2
          · exact h2 ▸ le_refl _
          · exact hR d e (ha e h2) hfe.symm
        · have hdk : f d ∉ (f a :: seen) := ddAux_not_seen f as _ d h1
          rcases List.mem_cons.mp he with h2 | h2
          · exact absurd (hfe ▸ (h2 ▸ List.mem_cons_self (f a) seen : f e ∈ f a :: seen)) hdk
          · exact ih _ d has h1 e h2 hfe

/-- Pushing a count for a key overrides its seen count. -/
lemma seenCnt_cons_self (k : String × ℚ) (c : ℕ) (seen : List ((String × ℚ) × ℕ)) :
    seenCnt k ((k, c) :: seen) = c := by
  simp [seenCnt, List.find?_cons]

/-- Pushing a count for another key leaves a seen count unchanged. -/
lemma seenCnt_cons_ne {k2 k : String × ℚ} (h : k2 ≠ k) (c : ℕ)
    (seen : List ((String × ℚ) × ℕ)) :
    seenCnt k ((k2, c) :: seen) = seenCnt k seen := by
  simp [seenCnt, List.find?_cons, h]

/-- The group head model restricted to one key is a take of that
group: the kept rows of a group are its first n minus already-seen
rows. -/
lemma hpgAux_filter (n : ℕ) (k : String × ℚ) :
    ∀ (l : List Row) (seen : List ((String × ℚ) × ℕ)),
      (hpgAux n l seen).filter (fun r => decide (syKey r = some k)) =
        (l.filter (fun r => decide (syKey r = some k))).take (n - seenCnt k seen) := by
  intro l
  induction l with
  | nil => intro seen; simp [hpgAux]
  | cons r rs ih =>
      intro seen
      simp only [hpgAux]
      cases hk : syKey r with
      | none =>
          rw [List.filter_cons]
          simp only [hk, Option.some.injEq]
          simp [ih seen]
      | some k2 =>
          dsimp only
          by_cases hkk : k2 = k
          · subst hkk
            by_cases hc : seenCnt k2 seen < n
            · rw [if_pos hc, List.filter_cons, List.filter_cons]
              simp only [hk, decide_eq_true_eq, Option.some.injEq]
              obtain ⟨m, hm⟩ : ∃ m, n - seenCnt k2 seen = m + 1 :=
                ⟨n - seenCnt k2 seen - 1, by omega⟩
              simp only [if_true]
              rw [ih, seenCnt_cons_self, hm, List.take_succ_cons]
              have hm2 : n - (seenCnt k2 seen + 1) = m := by omega
              rw [hm2]
            · rw [if_neg hc, List.filter_cons]
              simp only [hk, decide_eq_true_eq, Option.some.injEq]
              simp only [if_true]
              rw [ih, seenCnt_cons_self]
              have h0 : n - seenCnt k2 seen = 0 := by omega
              have h1 : n - (seenCnt k2 seen + 1) = 0 := by omega
              rw [h0, h1]
              simp
          · have hpred : (decide (syKey r = some k)) = false := by
              simp [hk, hkk]
            by_cases hc : seenCnt k2 seen < n
            · rw [if_pos hc, List.filter_cons, List.filter_cons, hpred]
              simp only [Bool.false_eq_true, if_false]
              rw [ih, seenCnt_cons_ne hkk]
            · rw [if_neg hc, List.filter_cons, hpred]
              simp only [Bool.false_eq_true, if_false]
              rw [ih, seenCnt_cons_ne hkk]

/-- The sort comparison of turnout_top is total. -/
lemma ttLe_total : ∀ a b : Row, (ttLe a b || ttLe b a) = true := by
  intro a b
  simp only [ttLe, Bool.or_eq_true, decide_eq_true_eq]
  exact le_total _ _

/-- The sort comparison of turnout_top is transitive. -/
lemma ttLe_trans : ∀ a b c : Row, ttLe a b = true → ttLe b c = true → ttLe a c = true := by
  intro a b c
  simp only [ttLe, decide_eq_true_eq]
  exact le_trans

/-- The (state, year) key is some exactly on the stated fields. -/
lemma syKey_some (r : Row) (s : String) (y : ℚ) :
    syKey r = some (s, y) ↔ r.state = some s ∧ r.year = some y := by
  cases h1 : r.state <;> cases h2 : r.year <;> simp [syKey, h1, h2]

/-- Within one (state, year) group the sort comparison orders by
descending Turnout. -/
lemma ttLe_turnout {a b : Row} {s : String} {y : ℚ}
    (ha : syKey a = some (s, y)) (hb : syKey b = some (s, y))
    (h : ttLe a b = true) : b.Turnout ≤ a.Turnout := by
  rcases (syKey_some a s y).mp ha with ⟨ha1, ha2⟩
  rcases (syKey_some b s y).mp hb with ⟨hb1, hb2⟩
  rw [ttLe, decide_eq_true_eq] at h
  rw [ttSortKey, ttSortKey, ha1, ha2, hb1, hb2] at h
  rcases (Prod.Lex.le_iff _ _).mp h with h1 | ⟨_, h2⟩
  · exact absurd h1 (lt_irrefl _)
  · rcases (Prod.Lex.le_iff _ _).mp h2 with h3 | ⟨_, h4⟩
    · exact absurd h3 (lt_irrefl _)
    · exact OrderDual.toDual_le_toDual.mp h4

/-- turnout_top restricted to one group is the first ten rows of the
sorted group. -/
lemma turnout_top_filter (df : List Row) (s : String) (y : ℚ) :
    (turnout_top df).filter (fun r => decide (syKey r = some (s, y))) =
      ((sortBy ttLe df).filter (fun r => decide (syKey r = some (s, y)))).take 10 := by
  rw [turnout_top, hpgAux_filter]
  simp [seenCnt]

/-- The sort comparison of the dominance table is total. -/
lemma domLe_total : ∀ a b : DomRow, (domLe a b || domLe b a) = true := by
  intro a b
  simp only [domLe, Bool.or_eq_true, decide_eq_true_eq]
  exact le_total _ _

/-- The sort comparison of the dominance table is transitive. -/
lemma domLe_trans : ∀ a b c : DomRow,
    domLe a b = true → domLe b c = true → domLe a c = true := by
  intro a b c
  simp only [domLe, decide_eq_true_eq]
  exact le_trans

/-- On rows of one (state, year) pair the dominance sort orders by
descending seats. -/
lemma domLe_seats {a b : DomRow} (h : domLe a b = true)
    (hst : a.state = b.state) (hyr : a.year = b.year) : b.seats ≤ a.seats := by
  rw [domLe, decide_eq_true_eq, domSortKey, domSortKey, hst, hyr] at h
  rcases (Prod.Lex.le_iff _ _).mp h with h1 | ⟨_, h2⟩
  · exact absurd h1 (lt_irrefl _)
  · rcases (Prod.Lex.le_iff _ _).mp h2 with h3 | ⟨_, h4⟩
    · exact absurd h3 (lt_irrefl _)
    · exact OrderDual.toDual_le_toDual.mp h4

/-- The (state, year, party) key is some exactly on the stated fields. -/
lemma domKey_some (r : Row) (s : String) (y : ℚ) (p : String) :
    domKey r = some (s, y, p) ↔
      r.state = some s ∧ r.year = some y ∧ r.party = p := by
  cases h1 : r.state <;> cases h2 : r.year <;> simp [domKey, h1, h2]

/-- A key occurs among the dominance group keys exactly when a row of
the table has that state, year and party. -/
lemma mem_domKeys (df : List Row) (s : String) (y : ℚ) (p : String) :
    (s, y, p) ∈ (df_dom df).filterMap domKey ↔
      ∃ r ∈ df, r.state = some s ∧ r.year = some y ∧ r.party = p := by
  rw [List.mem_filterMap]
  constructor
  · rintro ⟨r, hr, hk⟩
    rcases (domKey_some r s y p).mp hk with ⟨h1, h2, h3⟩
    exact ⟨r, (List.mem_filter.mp hr).1, h1, h2, h3⟩
  · rintro ⟨r, hr, h1, h2, h3⟩
    refine ⟨r, List.mem_filter.mpr ⟨hr, ?_⟩, (domKey_some r s y p).mpr ⟨h1, h2, h3⟩⟩
    simp [h1, h2]

/-- Membership in the groupby size table. -/
lemma mem_groupSizes {df : List Row} {d : DomRow} :
    d ∈ groupSizes df ↔
      ((d.state, d.year, d.party) ∈ (df_dom df).filterMap domKey ∧
        d.seats = seatCount (df_dom df) d.state d.year d.party) := by
  unfold groupSizes
  rw [List.mem_map]
  constructor
  · rintro ⟨k, hk, he⟩
    subst he
    simpa using List.mem_dedup.mp hk
  · rintro ⟨hk, hs⟩
    refine ⟨(d.state, d.year, d.party), List.mem_dedup.mpr hk, ?_⟩
    rw [← hs]

/-- The dominance table has the stated count on any (state, year)
pair: one when the pair occurs in the table, zero otherwise. -/
lemma dominant_countP_key (df : List Row) (s : String) (y : ℚ) :
    (dominant df).countP (fun d => decide ((d.state, d.year) = (s, y))) =
      if df.any (fun r => decide (r.state = some s) && decide (r.year = some y))
      then 1 else 0 := by
  rw [dominant, ddAux_countP]
  simp only [List.not_mem_nil, if_false]
  have hany : ((sortBy domLe (groupSizes df)).any
        (fun x => decide ((x.state, x.year) = (s, y)))) =
      df.any (fun r => decide (r.state = some s) && decide (r.year = some y)) := by
    rw [Bool.eq_iff_iff, List.any_eq_true, List.any_eq_true]
    constructor
    · rintro ⟨d, hd, hk⟩
      have hd2 : d ∈ groupSizes df := (sortBy_perm domLe _).mem_iff.mp hd
      rcases mem_groupSizes.mp hd2 with ⟨hkey, _⟩
      simp only [decide_eq_true_eq, Prod.mk.injEq] at hk
      rcases hk with ⟨hs1, hy1⟩
      rcases (mem_domKeys df d.state d.year d.party).mp hkey with ⟨r, hr, h1, h2, _⟩
      exact ⟨r, hr, by simp [h1, h2, hs1, hy1]⟩
    · rintro ⟨r, hr, hk⟩
      simp only [Bool.and_eq_true, decide_eq_true_eq] at hk
      rcases hk with ⟨h1, h2⟩
      refine ⟨⟨s, y, r.party, seatCount (df_dom df) s y r.party⟩, ?_, by simp⟩
      apply (sortBy_perm domLe _).mem_iff.mpr
      exact mem_groupSizes.mpr
        ⟨(mem_domKeys df s y r.party).mpr ⟨r, hr, h1, h2, rfl⟩, rfl⟩
  rw [hany]

/-- A positive seat count for a party exhibits a group row. -/
lemma seatCount_pos_mem (df : List Row) (s : String) (y : ℚ) (p : String)
    (h : 0 < seatCount (df_dom df) s y p) :
    (⟨s, y, p, seatCount (df_dom df) s y p⟩ : DomRow) ∈ groupSizes df := by
  rcases List.countP_pos_iff.mp h with ⟨r, hr, hp⟩
  simp only [Bool.and_eq_true, decide_eq_true_eq] at hp
  rcases hp with ⟨⟨h1, h2⟩, h3⟩
  have hr2 : r ∈ df := by
    have := (List.filter_sublist (l := df)
      (p := fun r => r.state.isSome && r.year.isSome)).subset hr
    exact this
  exact mem_groupSizes.mpr ⟨(mem_domKeys df s y p).mpr ⟨r, hr2, h1, h2, h3⟩, rfl⟩

/-- The candidate-wins key is some exactly on the stated fields. -/
lemma cwKey_some (r : Row) (c p : String) :
    cwKey r = some (c, p) ↔ r.candidate_name = some c ∧ r.party = p := by
  cases h : r.candidate_name <;> simp [cwKey, h]

/-- A pair occurs among the candidate-wins keys exactly when its
occurrence count is positive. -/
lemma mem_cwKeys (df : List Row) (c p : String) :
    (c, p) ∈ df.filterMap cwKey ↔ 0 < pairCount df c p := by
  rw [List.mem_filterMap, pairCount]
  constructor
  · rintro ⟨r, hr, hk⟩
    rcases (cwKey_some r c p).mp hk with ⟨h1, h2⟩
    exact List.countP_pos_iff.mpr ⟨r, hr, by simp [h1, h2]⟩
  · intro h
    rcases List.countP_pos_iff.mp h with ⟨r, hr, hp⟩
    simp only [Bool.and_eq_true, decide_eq_true_eq] at hp
    exact ⟨r, hr, (cwKey_some r c p).mpr hp⟩

/-- Counting a first component over the flat map of the merge: every
produced row carries its geometry row, so the count is the geometry
multiplicity times the block length. -/
lemma countP_flatMap_fst (geo : List GeoRow)
    (F : GeoRow → List (GeoRow × Option MapRow)) (g : GeoRow)
    (h : ∀ a, ∀ q ∈ F a, q.1 = a) :
    (geo.flatMap F).countP (fun q => decide (q.1 = g)) =
      geo.count g * (F g).length := by
  induction geo with
  | nil => simp
  | cons a tl ih =>
      rw [List.flatMap_cons, List.countP_append, ih, List.count_cons]
      by_cases hag : a = g
      · subst hag
        rw [List.countP_eq_length.mpr (fun q hq => by simp [h a q hq])]
        simp [Nat.add_mul]
        ring
      · rw [List.countP_eq_zero.mpr (fun q hq => by simp [h a q hq, hag])]
        simp [hag]

/-- One step of the cut with a left-closed first interval. -/
lemma cutBins_cons_true (x lo hi : ℚ) (bs : List ℚ) (lb : String) (lbs : List String) :
    cutBins x lo true (hi :: bs) (lb :: lbs) =
      if lo ≤ x ∧ x ≤ hi then some lb
      else cutBins x hi false bs lbs := rfl

/-- One step of the cut with a left-open interval. -/
lemma cutBins_cons_false (x lo hi : ℚ) (bs : List ℚ) (lb : String) (lbs : List String) :
    cutBins x lo false (hi :: bs) (lb :: lbs) =
      if lo < x ∧ x ≤ hi then some lb
      else cutBins x hi false bs lbs := rfl

/-- The cut of an exhausted bin list. -/
lemma cutBins_nil (x lo : ℚ) (inc : Bool) (lbs : List String) :
    cutBins x lo inc [] lbs = none := rfl

/-- The cut applied to the concrete bins of line 224. -/
lemma pdCut_eq (x : ℚ) :
    pdCut x = cutBins x 0 true [1, 5, 10, 15, 20, 30, 40, 50, 100] labels := rfl

set_option maxHeartbeats 2000000 in
/-- Closed form of the margin bucket of one value. -/
lemma marginColor_some (x : ℚ) :
    marginColor (some x) =
      if 0 ≤ x ∧ x ≤ 1 then "0-1"
      else if 1 < x ∧ x ≤ 5 then "1-5"
      else if 5 < x ∧ x ≤ 10 then "5-10"
      else if 10 < x ∧ x ≤ 15 then "10-15"
      else if 15 < x ∧ x ≤ 20 then "15-20"
      else if 20 < x ∧ x ≤ 30 then "20-30"
      else if 30 < x ∧ x ≤ 40 then "30-40"
      else if 40 < x ∧ x ≤ 50 then "40-50"
      else if 50 < x ∧ x ≤ 100 then "50-100"
      else "gray" := by
  have h : marginColor (some x) = (pdCut x).getD "gray" := rfl
  rw [h, pdCut_eq]
  simp only [labels, cutBins_cons_true, cutBins_cons_false, cutBins_nil]
  split_ifs <;> rfl

/-- A value of [0, 100] cannot avoid all nine bins. -/
lemma margin_in_some_bin {x : ℚ} (h0 : 0 ≤ x) (h100 : x ≤ 100)
    (h1 : ¬(0 ≤ x ∧ x ≤ 1)) (h2 : ¬(1 < x ∧ x ≤ 5)) (h3 : ¬(5 < x ∧ x ≤ 10))
    (h4 : ¬(10 < x ∧ x ≤ 15)) (h5 : ¬(15 < x ∧ x ≤ 20)) (h6 : ¬(20 < x ∧ x ≤ 30))
    (h7 : ¬(30 < x ∧ x ≤ 40)) (h8 : ¬(40 < x ∧ x ≤ 50))
    (h9 : ¬(50 < x ∧ x ≤ 100)) : False := by
  have c1 : 1 < x := by by_contra hc; push_neg at hc; exact h1 ⟨h0, hc⟩
  have c2 : 5 < x := by by_contra hc; push_neg at hc; exact h2 ⟨c1, hc⟩
  have c3 : 10 < x := by by_contra hc; push_neg at hc; exact h3 ⟨c2, hc⟩
  have c4 : 15 < x := by by_contra hc; push_neg at hc; exact h4 ⟨c3, hc⟩
  have c5 : 20 < x := by by_contra hc; push_neg at hc; exact h5 ⟨c4, hc⟩
  have c6 : 30 < x := by by_contra hc; push_neg at hc; exact h6 ⟨c5, hc⟩
  have c7 : 40 < x := by by_contra hc; push_neg at hc; exact h7 ⟨c6, hc⟩
  have c8 : 50 < x := by by_contra hc; push_neg at hc; exact h8 ⟨c7, hc⟩
  exact h9 ⟨c8, h100⟩

/-- No table entry has an uppercase letter as its lowercase side. -/
lemma caseTable_snd_not_fst : ∀ p ∈ caseTable, ∀ q ∈ caseTable, ¬(q.1 = p.2) := by
  decide

/-- No table entry has a lowercase letter as its uppercase side. -/
lemma caseTable_fst_not_snd : ∀ p ∈ caseTable, ∀ q ∈ caseTable, ¬(q.2 = p.1) := by
  decide

/-- No table letter is whitespace. -/
lemma caseTable_not_space : ∀ p ∈ caseTable,
    pySpace p.1 = false ∧ pySpace p.2 = false := by
  decide

/-- Letters on the lowercase side are cased. -/
lemma isCased_fst {pr : Char × Char} (h : pr ∈ caseTable) :
    isCasedChar pr.1 = true :=
  List.any_eq_true.mpr ⟨pr, h, by simp⟩

/-- Letters on the uppercase side are cased. -/
lemma isCased_snd {pr : Char × Char} (h : pr ∈ caseTable) :
    isCasedChar pr.2 = true :=
  List.any_eq_true.mpr ⟨pr, h, by simp⟩

/-- Value of the uppercase map on a table hit. -/
lemma upChar_eq_some {c : Char} {pr : Char × Char}
    (h : caseTable.find? (fun p => p.1 = c) = some pr) : upChar c = pr.2 := by
  rw [upChar, h]; rfl

/-- Value of the uppercase map on a table miss. -/
lemma upChar_eq_none {c : Char}
    (h : caseTable.find? (fun p => p.1 = c) = none) : upChar c = c := by
  rw [upChar, h]; rfl

/-- Value of the lowercase map on a table hit. -/
lemma lowChar_eq_some {c : Char} {pr : Char × Char}
    (h : caseTable.find? (fun p => p.2 = c) = some pr) : lowChar c = pr.1 := by
  rw [lowChar, h]; rfl

/-- Value of the lowercase map on a table miss. -/
lemma lowChar_eq_none {c : Char}
    (h : caseTable.find? (fun p => p.2 = c) = none) : lowChar c = c := by
  rw [lowChar, h]; rfl

/-- Uppercasing keeps casedness. -/
lemma isCased_upChar (c : Char) : isCasedChar (upChar c) = isCasedChar c := by
  rcases h : caseTable.find? (fun p => p.1 = c) with _ | pr
  · rw [upChar_eq_none h]
  · have hm := List.mem_of_find?_eq_some h
    have hp : pr.1 = c := by simpa using List.find?_some h
    rw [upChar_eq_some h, isCased_snd hm, ← hp, isCased_fst hm]

/-- Lowercasing keeps casedness. -/
lemma isCased_lowChar (c : Char) : isCasedChar (lowChar c) = isCasedChar c := by
  rcases h : caseTable.find? (fun p => p.2 = c) with _ | pr
  · rw [lowChar_eq_none h]
  · have hm := List.mem_of_find?_eq_some h
    have hp : pr.2 = c := by simpa using List.find?_some h
    rw [lowChar_eq_some h, isCased_fst hm, ← hp, isCased_snd hm]

/-- Uppercasing is idempotent. -/
lemma upChar_upChar (c : Char) : upChar (upChar c) = upChar c := by
  rcases h : caseTable.find? (fun p => p.1 = c) with _ | pr
  · rw [upChar_eq_none h]
    exact upChar_eq_none h
  · have hm := List.mem_of_find?_eq_some h
    have hnone : caseTable.find? (fun p => p.1 = pr.2) = none :=
      List.find?_eq_none.mpr (fun q hq => by
        simpa using caseTable_snd_not_fst pr hm q hq)
    rw [upChar_eq_some h, upChar_eq_none hnone]

/-- Lowercasing is idempotent. -/
lemma lowChar_lowChar (c : Char) : lowChar (lowChar c) = lowChar c := by
  rcases h : caseTable.find? (fun p => p.2 = c) with _ | pr
  · rw [lowChar_eq_none h]
    exact lowChar_eq_none h
  · have hm := List.mem_of_find?_eq_some h
    have hnone : caseTable.find? (fun p => p.2 = pr.1) = none :=
      List.find?_eq_none.mpr (fun q hq => by
        simpa using caseTable_fst_not_snd pr hm q hq)
    rw [lowChar_eq_some h, lowChar_eq_none hnone]

/-- Uppercasing keeps whitespace-ness. -/
lemma pySpace_upChar (c : Char) : pySpace (upChar c) = pySpace c := by
  rcases h : caseTable.find? (fun p => p.1 = c) with _ | pr
  · rw [upChar_eq_none h]
  · have hm := List.mem_of_find?_eq_some h
    have hp : pr.1 = c := by simpa using List.find?_some h
    rw [upChar_eq_some h, (caseTable_not_space pr hm).2, ← hp,
        (caseTable_not_space pr hm).1]

/-- Lowercasing keeps whitespace-ness. -/
lemma pySpace_lowChar (c : Char) : pySpace (lowChar c) = pySpace c := by
  rcases h : caseTable.find? (fun p => p.2 = c) with _ | pr
  · rw [lowChar_eq_none h]
  · have hm := List.mem_of_find?_eq_some h
    have hp : pr.2 = c := by simpa using List.find?_some h
    rw [lowChar_eq_some h, (caseTable_not_space pr hm).1, ← hp,
        (caseTable_not_space pr hm).2]

/-- Title-casing keeps the whitespace positions of a string. -/
lemma titleAux_map_space : ∀ (b : Bool) (l : List Char),
    (titleAux b l).map pySpace = l.map pySpace := by
  intro b l
  induction l generalizing b with
  | nil => rfl
  | cons c cs ih =>
      simp only [titleAux, List.map_cons, ih]
      by_cases hb : b
      · rw [if_pos hb, pySpace_lowChar]
      · rw [if_neg hb, pySpace_upChar]

/-- Title-casing is idempotent. -/
lemma titleAux_idem : ∀ (b : Bool) (l : List Char),
    titleAux b (titleAux b l) = titleAux b l := by
  intro b l
  induction l generalizing b with
  | nil => rfl
  | cons c cs ih =>
      by_cases hb : b
      · subst hb
        simp only [titleAux, if_true]
        rw [lowChar_lowChar, isCased_lowChar, ih (isCasedChar c)]
      · have hb2 : b = false := by simpa using hb
        subst hb2
        simp only [titleAux, Bool.false_eq_true, if_false]
        rw [upChar_upChar, isCased_upChar, ih (isCasedChar c)]

/-- The head of a fixed point of dropWhile fails the test. -/
lemma head_false_of_dropWhile_self {p : Char → Bool} {a : Char} {t : List Char}
    (h : (a :: t).dropWhile p = a :: t) : p a = false := by
  by_cases hp : p a
  · exfalso
    rw [List.dropWhile_cons, if_pos hp] at h
    have hle := ((List.dropWhile_suffix (l := t) p).sublist).length_le
    rw [h] at hle
    simp at hle
  · simpa using hp

/-- A fixed point of dropWhile transfers along equal test maps. -/
lemma dropWhile_eq_self_of_map {p : Char → Bool} :
    ∀ {l₁ l₂ : List Char}, l₁.map p = l₂.map p → l₂.dropWhile p = l₂ →
      l₁.dropWhile p = l₁ := by
  intro l₁ l₂ hmap h2
  cases l₁ with
  | nil => rfl
  | cons a t =>
      cases l₂ with
      | nil => simp at hmap
      | cons b t₂ =>
          simp only [List.map_cons, List.cons.injEq] at hmap
          have hb : p b = false := head_false_of_dropWhile_self h2
          rw [List.dropWhile_cons, if_neg (by rw [hmap.1, hb]; simp)]

/-- The strip of a list is left-stripped. -/
lemma stripList_dropWhile (l : List Char) :
    (stripList l).dropWhile pySpace = stripList l := by
  rw [stripList]
  cases hrv : ((l.dropWhile pySpace).reverse.dropWhile pySpace).reverse with
  | nil => rfl
  | cons a t =>
      have hsuf : (l.dropWhile pySpace).reverse.dropWhile pySpace
          <:+ (l.dropWhile pySpace).reverse := List.dropWhile_suffix pySpace
      have hpre : ((l.dropWhile pySpace).reverse.dropWhile pySpace).reverse
          <+: l.dropWhile pySpace :=
        List.reverse_suffix.mp (by rw [List.reverse_reverse]; exact hsuf)
      rw [hrv] at hpre
      rcases hpre with ⟨t2, ht2⟩
      have hself : (l.dropWhile pySpace).dropWhile pySpace = l.dropWhile pySpace :=
        List.dropWhile_idempotent pySpace l
      rw [← ht2] at hself
      have hself2 : (a :: (t ++ t2)).dropWhile pySpace = a :: (t ++ t2) := by
        simpa [List.cons_append] using hself
      have hpa : pySpace a = false := head_false_of_dropWhile_self hself2
      rw [List.dropWhile_cons, if_neg (by rw [hpa]; simp)]

/-- The strip of a list is right-stripped. -/
lemma stripList_reverse_dropWhile : ∀ l : List Char,
    (stripList l).reverse.dropWhile pySpace = (stripList l).reverse := by
  intro l
  rw [stripList, List.reverse_reverse]
  exact List.dropWhile_idempotent pySpace _

/-- A list whose whitespace map matches a stripped list is itself a
fixed point of strip. -/
lemma stripList_eq_self_of_map {m t : List Char}
    (hmap : m.map pySpace = t.map pySpace)
    (h1 : t.dropWhile pySpace = t)
    (h2 : t.reverse.dropWhile pySpace = t.reverse) :
    stripList m = m := by
  have hm1 : m.dropWhile pySpace = m := dropWhile_eq_self_of_map hmap h1
  have hmaprev : m.reverse.map pySpace = t.reverse.map pySpace := by
    rw [List.map_reverse, List.map_reverse, hmap]
  have hm2 : m.reverse.dropWhile pySpace = m.reverse :=
    dropWhile_eq_self_of_map hmaprev h2
  rw [stripList, hm1, hm2, List.reverse_reverse]

/-- The join-key normalization is idempotent. -/
lemma normalizePc_idem (s : String) : normalizePc (normalizePc s) = normalizePc s := by
  have hdata : (normalizePc s).data = titleAux false (stripList s.data) := rfl
  have hstrip : stripList (titleAux false (stripList s.data))
      = titleAux false (stripList s.data) :=
    stripList_eq_self_of_map (titleAux_map_space false (stripList s.data))
      (stripList_dropWhile s.data) (stripList_reverse_dropWhile s.data)
  show (⟨titleAux false (stripList (normalizePc s).data)⟩ : String) = normalizePc s
  rw [hdata, hstrip, titleAux_idem]
  rfl

/-! Claim theorems. -/

/-- C4: for every (state, year) group of the cleaned results table,
turnout_top holds exactly min(10, group size) rows of the group, and
every held row has Turnout at least the Turnout of every row of the
group it excludes. -/
theorem turnout_top_is_top10 (raw : List RawRow) (s : String) (y : ℚ) :
    ((turnout_top (dfHist raw)).filter (fun r => decide (syKey r = some (s, y)))).length
        = min 10 ((dfHist raw).filter (fun r => decide (syKey r = some (s, y)))).length ∧
    ((turnout_top (dfHist raw)).filter (fun r => decide (syKey r = some (s, y)))
        ++ ((sortBy ttLe (dfHist raw)).filter
              (fun r => decide (syKey r = some (s, y)))).drop 10).Perm
      ((dfHist raw).filter (fun r => decide (syKey r = some (s, y)))) ∧
    ∀ a ∈ (turnout_top (dfHist raw)).filter (fun r => decide (syKey r = some (s, y))),
      ∀ b ∈ ((sortBy ttLe (dfHist raw)).filter
                (fun r => decide (syKey r = some (s, y)))).drop 10,
        b.Turnout ≤ a.Turnout := by
  have hperm : (sortBy ttLe (dfHist raw)).Perm (dfHist raw) := sortBy_perm ttLe _
  have hfperm := hperm.filter (fun r => decide (syKey r = some (s, y)))
  have hsorted : List.Pairwise (fun x y2 => ttLe x y2 = true) (sortBy ttLe (dfHist raw)) :=
    sortBy_sorted ttLe ttLe_trans ttLe_total _
  have hsf : List.Pairwise (fun x y2 => ttLe x y2 = true)
      ((sortBy ttLe (dfHist raw)).filter (fun r => decide (syKey r = some (s, y)))) :=
    List.Pairwise.sublist (List.filter_sublist _) hsorted
  refine ⟨?_, ?_, ?_⟩
  · rw [turnout_top_filter, List.length_take, hfperm.length_eq]
  · rw [turnout_top_filter, List.take_append_drop]
    exact hfperm
  · intro a ha b hb
    rw [turnout_top_filter] at ha
    have hsplit : List.Pairwise (fun x y2 => ttLe x y2 = true)
        (((sortBy ttLe (dfHist raw)).filter (fun r => decide (syKey r = some (s, y)))).take 10
          ++ ((sortBy ttLe (dfHist raw)).filter
                (fun r => decide (syKey r = some (s, y)))).drop 10) := by
      rw [List.take_append_drop]
      exact hsf
    have hle := (List.pairwise_append.mp hsplit).2.2 a ha b hb
    have hka : syKey a = some (s, y) := by
      have := List.mem_filter.mp (List.take_subset 10 _ ha)
      exact of_decide_eq_true this.2
    have hkb : syKey b = some (s, y) := by
      have := List.mem_filter.mp (List.drop_subset 10 _ hb)
      exact of_decide_eq_true this.2
    exact ttLe_turnout hka hkb hle

/-- Evaluation of the one-row pipeline input used by witnesses. -/
lemma dfHist_rowA : dfHist [rowA] = [rowAClean] := by
  simp [dfHist, cleanRow_rowA]

/-- C10: the dominance table has (state, year) as a key: every
(state, year) pair present in the rows with non-missing state and year
has exactly one row in it, ties notwithstanding. -/
theorem dominant_unique_per_state_year (raw : List RawRow) (s : String) (y : ℚ)
    (h : ∃ r ∈ dfHist raw, r.state = some s ∧ r.year = some y) :
    (dominant (dfHist raw)).countP
        (fun d => decide ((d.state, d.year) = (s, y))) = 1 := by
  rw [dominant_countP_key, if_pos]
  rw [List.any_eq_true]
  rcases h with ⟨r, hr, h1, h2⟩
  exact ⟨r, hr, by simp [h1, h2]⟩

/-- C10 witness: the key property applied to a concrete one-row
table. -/
theorem dominant_unique_per_state_year_witness :
    (dominant (dfHist [rowA])).countP
        (fun d => decide ((d.state, d.year) = ("S", 1962))) = 1 :=
  dominant_unique_per_state_year [rowA] "S" 1962
    ⟨rowAClean, by rw [dfHist_rowA]; exact List.mem_singleton.mpr rfl, rfl, rfl⟩

/-- C1: for every (state, year) pair present in the cleaned results
table, the dominance table retains a row of that pair whose party has
a win count at least that of every party in that state and year, and
whose seats field is the win count of the retained party. -/
theorem dominant_retains_max_party (raw : List RawRow) (s : String) (y : ℚ)
    (h : ∃ r ∈ dfHist raw, r.state = some s ∧ r.year = some y) :
    ∃ d ∈ dominant (dfHist raw), d.state = s ∧ d.year = y ∧
      d.seats = seatCount (df_dom (dfHist raw)) s y d.party ∧
      ∀ p : String, seatCount (df_dom (dfHist raw)) s y p ≤ d.seats := by
  have hc := dominant_unique_per_state_year raw s y h
  have hpos : 0 < (dominant (dfHist raw)).countP
      (fun d => decide ((d.state, d.year) = (s, y))) := by omega
  rcases List.countP_pos_iff.mp hpos with ⟨d, hd, hk⟩
  simp only [decide_eq_true_eq, Prod.mk.injEq] at hk
  rcases hk with ⟨hs1, hy1⟩
  have hd2 : d ∈ sortBy domLe (groupSizes (dfHist raw)) :=
    ddAux_subset _ _ _ _ hd
  have hd3 : d ∈ groupSizes (dfHist raw) := (sortBy_perm domLe _).mem_iff.mp hd2
  rcases mem_groupSizes.mp hd3 with ⟨_, hseats⟩
  refine ⟨d, hd, hs1, hy1, by rw [hseats, hs1, hy1], ?_⟩
  intro p
  rcases Nat.eq_zero_or_pos (seatCount (df_dom (dfHist raw)) s y p) with h0 | hpos2
  · omega
  · have he : (⟨s, y, p, seatCount (df_dom (dfHist raw)) s y p⟩ : DomRow)
        ∈ groupSizes (dfHist raw) := seatCount_pos_mem _ s y p hpos2
    have he2 : (⟨s, y, p, seatCount (df_dom (dfHist raw)) s y p⟩ : DomRow)
        ∈ sortBy domLe (groupSizes (dfHist raw)) :=
      (sortBy_perm domLe _).mem_iff.mpr he
    have hd4 : d ∈ ddAux (fun e : DomRow => (e.state, e.year))
        (sortBy domLe (groupSizes (dfHist raw))) [] := hd
    have hmax := ddAux_max (fun e : DomRow => (e.state, e.year)) DomRow.seats domLe
      (fun a b hab hfe => domLe_seats hab
        (congrArg Prod.fst hfe) (congrArg Prod.snd hfe))
      (sortBy domLe (groupSizes (dfHist raw))) [] d
      (sortBy_sorted domLe domLe_trans domLe_total _) hd4
      ⟨s, y, p, seatCount (df_dom (dfHist raw)) s y p⟩ he2
      (by simp [hs1, hy1])
    exact hmax

/-- C1 witness: the dominance property applied to a concrete one-row
table. -/
theorem dominant_retains_max_party_witness :
    ∃ d ∈ dominant (dfHist [rowA]), d.state = "S" ∧ d.year = 1962 ∧
      d.seats = seatCount (df_dom (dfHist [rowA])) "S" 1962 d.party ∧
      ∀ p : String, seatCount (df_dom (dfHist [rowA])) "S" 1962 p ≤ d.seats :=
  dominant_retains_max_party [rowA] "S" 1962
    ⟨rowAClean, by rw [dfHist_rowA]; exact List.mem_singleton.mpr rfl, rfl, rfl⟩

/-- C7: every render callback is stateless with respect to the
precomputed tables: after any callback runs on any input, the
in-memory tables are unchanged. -/
theorem callbacks_leave_tables_unchanged :
    ∀ (y : ℚ) (s : String) (st : AppState),
      (plot_map y st).2 = st ∧ (plot_margin_map y st).2 = st ∧
      (plot_sunburst st).2 = st ∧ (plot_history st).2 = st ∧
      (plot_heatmap s st).2 = st ∧ (plot_dom_graph st).2 = st := by
  intro y s st
  refine ⟨rfl, rfl, rfl, rfl, ?_, rfl⟩
  unfold plot_heatmap
  dsimp only
  split <;> rfl

/-- C2 counterexample: two raw rows that differ only in the raw
Turnout field survive the cleaning step differently, so the raw
Turnout field does influence which rows survive. -/
theorem turnout_raw_field_affects_survival :
    (cleanRow rowA).isSome = true ∧
    cleanRow { rowA with Turnout := "abc" } = none := by
  constructor <;> decide

/-- C2 amended: a row survives cleaning exactly when its raw Turnout,
votes and electors fields parse as numbers; for a surviving row the
Turnout used downstream is votes over electors times 100, and the raw
Turnout field does not influence the cleaned row as long as it
parses. -/
theorem turnout_recomputed_value :
    ∀ r : RawRow,
      ((cleanRow r).isSome = true ↔
        ((toNumeric (removeChar '%' r.Turnout)).isSome = true ∧
         (toNumeric (removeChar ',' r.votes)).isSome = true ∧
         (toNumeric (removeChar ',' r.electors)).isSome = true)) ∧
      (∀ row : Row, cleanRow r = some row →
        row.Turnout = row.votes / row.electors * 100 ∧
        ∀ t : String, (toNumeric (removeChar '%' t)).isSome = true →
          cleanRow { r with Turnout := t } = some row) := by
  intro r
  constructor
  · rw [cleanRow_eq]
    rcases toNumeric (removeChar '%' r.Turnout) with _ | tv <;>
      rcases toNumeric (removeChar ',' r.votes) with _ | vv <;>
        rcases toNumeric (removeChar ',' r.electors) with _ | ev <;> simp
  · intro row hrow
    rw [cleanRow_eq] at hrow
    rcases h1 : toNumeric (removeChar '%' r.Turnout) with _ | tv <;> rw [h1] at hrow <;>
      rcases h2 : toNumeric (removeChar ',' r.votes) with _ | vv <;> rw [h2] at hrow <;>
        rcases h3 : toNumeric (removeChar ',' r.electors) with _ | ev <;> rw [h3] at hrow <;>
          simp at hrow
    subst hrow
    constructor
    · rfl
    · intro t ht
      rcases h4 : toNumeric (removeChar '%' t) with _ | tv2
      · rw [h4] at ht; simp at ht
      · rw [cleanRow_eq]
        rw [show toNumeric (removeChar '%' ({ r with Turnout := t } : RawRow).Turnout)
              = some tv2 from h4, h2, h3]

/-- C8: the sunburst input holds exactly the candidate-and-party
pairs occurring strictly more than five times in the cleaned results
table, each with its exact occurrence count. -/
theorem sunburst_exactly_pairs_over_five (raw : List RawRow) (c p : String) (w : ℕ) :
    (⟨c, p, w⟩ : SunRow) ∈ sunburst_data (dfHist raw) ↔
      (5 < pairCount (dfHist raw) c p ∧ w = pairCount (dfHist raw) c p) := by
  rw [sunburst_data, top_candidates, List.mem_filter]
  constructor
  · rintro ⟨hmem, hw⟩
    rw [candidate_wins, List.mem_map] at hmem
    rcases hmem with ⟨k, _, he⟩
    have hc : k.1 = c := congrArg SunRow.candidate_name he
    have hp : k.2 = p := congrArg SunRow.party he
    have hwins : pairCount (dfHist raw) k.1 k.2 = w := congrArg SunRow.wins he
    rw [hc, hp] at hwins
    simp only [decide_eq_true_eq] at hw
    exact ⟨by rw [hwins]; exact hw, hwins.symm⟩
  · rintro ⟨h5, hw⟩
    have hpos : 0 < pairCount (dfHist raw) c p := by omega
    refine ⟨?_, by simp only [decide_eq_true_eq]; omega⟩
    rw [candidate_wins, List.mem_map]
    refine ⟨(c, p), ?_, by rw [hw]⟩
    apply (sortBy_perm cwLe _).mem_iff.mpr
    exact List.mem_dedup.mpr ((mem_cwKeys (dfHist raw) c p).mpr hpos)

/-- C6: the winning-party map join keeps every geometry region: each
geometry row appears once per matching result of the selected year, at
least once, and regions with no match get the party OTHER. -/
theorem plot_map_left_join (st : AppState) (y : ℚ) (g : GeoRow) :
    ((plot_map y st).1.countP (fun q => decide (q.1 = g)) =
      st.geo.count g * max 1 ((dfYear st.df_hist y).countP
          (fun m => decide (m.Pc_name = g.pc_name)))) ∧
    (g ∈ st.geo → 1 ≤ (plot_map y st).1.countP (fun q => decide (q.1 = g))) ∧
    (∀ q ∈ (plot_map y st).1,
      (dfYear st.df_hist y).countP (fun m => decide (m.Pc_name = q.1.pc_name)) = 0 →
        q.2.2 = "OTHER") := by
  have hblock : ∀ a : GeoRow, ∀ q ∈ (fun g2 : GeoRow =>
      let ms := (dfYear st.df_hist y).filter (fun m => decide (m.Pc_name = g2.pc_name))
      if ms.isEmpty then [(g2, (none : Option MapRow))]
      else ms.map (fun m => (g2, some m))) a, q.1 = a := by
    intro a q hq
    dsimp only at hq
    by_cases hemp : ((dfYear st.df_hist y).filter
        (fun m => decide (m.Pc_name = a.pc_name))).isEmpty
    · rw [if_pos hemp] at hq
      rcases List.mem_singleton.mp hq with rfl
      rfl
    · rw [if_neg hemp] at hq
      rcases List.mem_map.mp hq with ⟨m, _, rfl⟩
      rfl
  have hcount : ∀ g2 : GeoRow,
      ((plot_map y st).1.countP (fun q => decide (q.1 = g2))) =
        st.geo.count g2 * max 1 ((dfYear st.df_hist y).countP
            (fun m => decide (m.Pc_name = g2.pc_name))) := by
    intro g2
    have h1 : (plot_map y st).1.countP (fun q => decide (q.1 = g2)) =
        (leftMergeMap st.geo (dfYear st.df_hist y)).countP
          (fun q => decide (q.1 = g2)) := by
      rw [plot_map]
      rw [List.countP_map]
      rfl
    rw [h1, leftMergeMap, countP_flatMap_fst _ _ _ hblock]
    congr 1
    dsimp only
    by_cases hemp : ((dfYear st.df_hist y).filter
        (fun m => decide (m.Pc_name = g2.pc_name))).isEmpty
    · rw [if_pos hemp]
      have h0 : ((dfYear st.df_hist y).filter
          (fun m => decide (m.Pc_name = g2.pc_name))).length = 0 := by
        rw [List.isEmpty_iff] at hemp
        rw [hemp]
        rfl
      rw [List.countP_eq_length_filter, h0]
      rfl
    · rw [if_neg hemp, List.length_map, List.countP_eq_length_filter]
      have hpos : 0 < ((dfYear st.df_hist y).filter
          (fun m => decide (m.Pc_name = g2.pc_name))).length := by
        rcases Nat.eq_zero_or_pos ((dfYear st.df_hist y).filter
            (fun m => decide (m.Pc_name = g2.pc_name))).length with h0 | h0
        · exact absurd (List.isEmpty_iff.mpr (List.length_eq_zero.mp h0)) hemp
        · exact h0
      omega
  refine ⟨hcount g, ?_, ?_⟩
  · intro hg
    rw [hcount g]
    have h1 : 0 < st.geo.count g := List.count_pos_iff.mpr hg
    have h2 : 0 < max 1 ((dfYear st.df_hist y).countP
        (fun m => decide (m.Pc_name = g.pc_name))) := by omega
    exact Nat.mul_pos h1 h2
  · intro q hq hzero
    rw [plot_map] at hq
    rcases List.mem_map.mp hq with ⟨pr, hpr, rfl⟩
    rcases List.mem_flatMap.mp hpr with ⟨a, _, hin⟩
    dsimp only at hin
    by_cases hemp : ((dfYear st.df_hist y).filter
        (fun m => decide (m.Pc_name = a.pc_name))).isEmpty
    · rw [if_pos hemp] at hin
      rcases List.mem_singleton.mp hin with rfl
      rfl
    · rw [if_neg hemp] at hin
      rcases List.mem_map.mp hin with ⟨m, hm, rfl⟩
      exfalso
      rcases List.mem_filter.mp hm with ⟨hm1, hm2⟩
      dsimp only at hzero
      have hgt : 0 < (dfYear st.df_hist y).countP
          (fun m2 => decide (m2.Pc_name = a.pc_name)) :=
        List.countP_pos_iff.mpr ⟨m, hm1, hm2⟩
      omega

set_option maxHeartbeats 4000000 in
/-- C3: for every row of the cleaned results table the margin bucket
is the unique right-closed bin of margin% among the nine labels when
margin% lies in [0, 100] (zero included in the lowest bin), and is
gray exactly when margin% is missing or outside [0, 100]. -/
theorem margin_color_bins (raw : List RawRow) (r : Row) (_hmem : r ∈ dfHist raw) :
    (∀ x : ℚ, r.marginPct = some x → 0 ≤ x → x ≤ 100 →
      ((margin_color r = "0-1" ↔ (0 ≤ x ∧ x ≤ 1)) ∧
       (margin_color r = "1-5" ↔ (1 < x ∧ x ≤ 5)) ∧
       (margin_color r = "5-10" ↔ (5 < x ∧ x ≤ 10)) ∧
       (margin_color r = "10-15" ↔ (10 < x ∧ x ≤ 15)) ∧
       (margin_color r = "15-20" ↔ (15 < x ∧ x ≤ 20)) ∧
       (margin_color r = "20-30" ↔ (20 < x ∧ x ≤ 30)) ∧
       (margin_color r = "30-40" ↔ (30 < x ∧ x ≤ 40)) ∧
       (margin_color r = "40-50" ↔ (40 < x ∧ x ≤ 50)) ∧
       (margin_color r = "50-100" ↔ (50 < x ∧ x ≤ 100)) ∧
       margin_color r ∈ labels)) ∧
    (margin_color r = "gray" ↔
      (r.marginPct = none ∨ ∃ x : ℚ, r.marginPct = some x ∧ (x < 0 ∨ 100 < x))) := by
  constructor
  · intro x hx h0 h100
    rw [margin_color, hx, marginColor_some]
    split_ifs with h1 h2 h3 h4 h5 h6 h7 h8 h9
    · refine ⟨iff_of_true rfl h1, ?_, ?_, ?_, ?_, ?_, ?_, ?_, ?_, by decide⟩ <;>
        · refine iff_of_false (by decide) ?_
          rintro ⟨ha, hb⟩
          rcases h1 with ⟨h1a, h1b⟩
          linarith
    · refine ⟨?_, iff_of_true rfl h2, ?_, ?_, ?_, ?_, ?_, ?_, ?_, by decide⟩ <;>
        · refine iff_of_false (by decide) ?_
          rintro ⟨ha, hb⟩
          rcases h2 with ⟨h2a, h2b⟩
          linarith
    · refine ⟨?_, ?_, iff_of_true rfl h3, ?_, ?_, ?_, ?_, ?_, ?_, by decide⟩ <;>
        · refine iff_of_false (by decide) ?_
          rintro ⟨ha, hb⟩
          rcases h3 with ⟨h3a, h3b⟩
          linarith
    · refine ⟨?_, ?_, ?_, iff_of_true rfl h4, ?_, ?_, ?_, ?_, ?_, by decide⟩ <;>
        · refine iff_of_false (by decide) ?_
          rintro ⟨ha, hb⟩
          rcases h4 with ⟨h4a, h4b⟩
          linarith
    · refine ⟨?_, ?_, ?_, ?_, iff_of_true rfl h5, ?_, ?_, ?_, ?_, by decide⟩ <;>
        · refine iff_of_false (by decide) ?_
          rintro ⟨ha, hb⟩
          rcases h5 with ⟨h5a, h5b⟩
          linarith
    · refine ⟨?_, ?_, ?_, ?_, ?_, iff_of_true rfl h6, ?_, ?_, ?_, by decide⟩ <;>
        · refine iff_of_false (by decide) ?_
          rintro ⟨ha, hb⟩
          rcases h6 with ⟨h6a, h6b⟩
          linarith
    · refine ⟨?_, ?_, ?_, ?_, ?_, ?_, iff_of_true rfl h7, ?_, ?_, by decide⟩ <;>
        · refine iff_of_false (by decide) ?_
          rintro ⟨ha, hb⟩
          rcases h7 with ⟨h7a, h7b⟩
          linarith
    · refine ⟨?_, ?_, ?_, ?_, ?_, ?_, ?_, iff_of_true rfl h8, ?_, by decide⟩ <;>
        · refine iff_of_false (by decide) ?_
          rintro ⟨ha, hb⟩
          rcases h8 with ⟨h8a, h8b⟩
          linarith
    · refine ⟨?_, ?_, ?_, ?_, ?_, ?_, ?_, ?_, iff_of_true rfl h9, by decide⟩ <;>
        · refine iff_of_false (by decide) ?_
          rintro ⟨ha, hb⟩
          rcases h9 with ⟨h9a, h9b⟩
          linarith
    · exact absurd (margin_in_some_bin h0 h100 h1 h2 h3 h4 h5 h6 h7 h8 h9) not_false
  · cases hm : r.marginPct with
    | none =>
        rw [margin_color, hm]
        simp [marginColor]
    | some x =>
        rw [margin_color, hm, marginColor_some]
        split_ifs with h1 h2 h3 h4 h5 h6 h7 h8 h9 <;> first
          | · refine iff_of_false (by decide) ?_
              rintro (h | ⟨x2, hx2, hlt⟩)
              · simp at h
              · rw [Option.some.injEq] at hx2
                subst hx2
                first
                  | (rcases h1 with ⟨ha, hb⟩; rcases hlt with h | h <;> linarith)
                  | (rcases h2 with ⟨ha, hb⟩; rcases hlt with h | h <;> linarith)
                  | (rcases h3 with ⟨ha, hb⟩; rcases hlt with h | h <;> linarith)
                  | (rcases h4 with ⟨ha, hb⟩; rcases hlt with h | h <;> linarith)
                  | (rcases h5 with ⟨ha, hb⟩; rcases hlt with h | h <;> linarith)
                  | (rcases h6 with ⟨ha, hb⟩; rcases hlt with h | h <;> linarith)
                  | (rcases h7 with ⟨ha, hb⟩; rcases hlt with h | h <;> linarith)
                  | (rcases h8 with ⟨ha, hb⟩; rcases hlt with h | h <;> linarith)
                  | (rcases h9 with ⟨ha, hb⟩; rcases hlt with h | h <;> linarith)
          | · apply iff_of_true rfl
              right
              refine ⟨x, rfl, ?_⟩
              by_cases hx0 : x < 0
              · exact Or.inl hx0
              · push_neg at hx0
                by_cases hx100 : 100 < x
                · exact Or.inr hx100
                · push_neg at hx100
                  exact absurd
                    (margin_in_some_bin hx0 hx100 h1 h2 h3 h4 h5 h6 h7 h8 h9)
                    not_false

/-- C3 witness: the binning applied to the concrete cleaned row, whose
margin is 10. -/
theorem margin_color_bins_witness :
    margin_color rowAClean = "5-10" ↔ (5 < (10 : ℚ) ∧ (10 : ℚ) ≤ 10) :=
  ((margin_color_bins [rowA] rowAClean
      (by rw [dfHist_rowA]; exact List.mem_singleton.mpr rfl)).1
    10 rfl (by norm_num) (by norm_num)).2.2.1

/-- C5: the join-key normalization (strip then title-case) is the
same function normalizePc on the results column Pc_name and the
geometry column pc_name, it is idempotent, and two keys match after
normalization exactly when their normalized forms are equal. -/
theorem normalize_join_key :
    (∀ (r : RawRow) (row : Row), cleanRow r = some row →
        row.Pc_name = r.Pc_name.map normalizePc) ∧
    (∀ gs : List GeoRow, cleanGeo gs =
        gs.map (fun g => { g with pc_name := g.pc_name.map normalizePc })) ∧
    (∀ s : String, normalizePc (normalizePc s) = normalizePc s) ∧
    (∀ a b : String, normalizePc a = normalizePc b ↔
        normalizePc (normalizePc a) = normalizePc (normalizePc b)) := by
  refine ⟨?_, fun gs => rfl, normalizePc_idem, ?_⟩
  · intro r row hrow
    rw [cleanRow_eq] at hrow
    rcases h1 : toNumeric (removeChar '%' r.Turnout) with _ | tv <;> rw [h1] at hrow <;>
      rcases h2 : toNumeric (removeChar ',' r.votes) with _ | vv <;> rw [h2] at hrow <;>
        rcases h3 : toNumeric (removeChar ',' r.electors) with _ | ev <;> rw [h3] at hrow <;>
          simp at hrow
    subst hrow
    rfl
  · intro a b
    rw [normalizePc_idem, normalizePc_idem]

/-- C5 witness: idempotence evaluated on a concrete key with
whitespace and mixed case. -/
theorem normalize_join_key_witness :
    normalizePc (normalizePc "  kanpur URBAN ") = normalizePc "  kanpur URBAN " :=
  normalize_join_key.2.2.1 "  kanpur URBAN "

/-- C2 witness: the amended statement applied to the concrete row
rowA, discharging its hypotheses by computation. -/
theorem turnout_recomputed_value_witness :
    rowAClean.Turnout = rowAClean.votes / rowAClean.electors * 100 ∧
    cleanRow { rowA with Turnout := "99" } = some rowAClean :=
  ⟨((turnout_recomputed_value rowA).2 rowAClean cleanRow_rowA).1,
   ((turnout_recomputed_value rowA).2 rowAClean cleanRow_rowA).2 "99" (by decide)⟩

/-- C9 counterexample: a row whose electors field is the string 0
survives the dropna, so the cleaning does not guarantee a nonzero
divisor in the turnout recomputation. -/
theorem electors_zero_survives_cleaning :
    (cleanRow rowZeroElectors).isSome = true ∧
    (cleanRow rowZeroElectors).map Row.electors = some 0 :=
  ⟨rfl, rfl⟩

/-- C9 amended: every row that survives the dropna has electors and
votes fields that parsed successfully (non-missing), but a parsed
electors value of zero is not excluded. -/
theorem electors_parse_guard :
    ∀ (r : RawRow) (row : Row), cleanRow r = some row →
      toNumeric (removeChar ',' r.electors) = some row.electors ∧
      toNumeric (removeChar ',' r.votes) = some row.votes := by
  intro r row hrow
  rw [cleanRow_eq] at hrow
  rcases h1 : toNumeric (removeChar '%' r.Turnout) with _ | tv <;> rw [h1] at hrow <;>
    rcases h2 : toNumeric (removeChar ',' r.votes) with _ | vv <;> rw [h2] at hrow <;>
      rcases h3 : toNumeric (removeChar ',' r.electors) with _ | ev <;> rw [h3] at hrow <;>
        simp at hrow
  subst hrow
  exact ⟨by simp [h3], by simp [h2]⟩

/-- C9 witness: the amended statement applied to the concrete row
rowA. -/
theorem electors_parse_guard_witness :
    toNumeric (removeChar ',' rowA.electors) = some rowAClean.electors ∧
    toNumeric (removeChar ',' rowA.votes) = some rowAClean.votes :=
  electors_parse_guard rowA rowAClean cleanRow_rowA

end Election
